import Mathlib

/-!
Verification development for the CDSSM preprocessor
(`matchzoo/preprocessor/cdssm_preprocessor.py`).

The orchestrator (`CDSSMPreprocessor.__init__`, `_prepare_process_units`,
`fit`, `transform`) is embedded from the source file.  The process units it
calls (tokenize / lowercase / punctuation removal / stopword removal,
`NgramLetterUnit`, `VocabularyUnit`, `WordHashingUnit`, `FixedLengthUnit`,
`SlidingWindowUnit`), the `segment` mixin, the `DataPack` container and the
`validate_context` decorator are not part of the source tree; each of those
is modelled from the specification, as marked in its doc comment.
-/

/-! ## Normalization units (swappable policy per the spec) -/

set_option maxRecDepth 10000

/-- Modelled from the spec: `TokenizeUnit` is not under `src/`; the spec
declares the tokenizer rule set swappable policy with contract
string → ordered token sequence.  Concrete policy here: split on spaces. -/
def splitTokens : List Char → List Char → List String
  | [], acc => if acc.isEmpty then [] else [⟨acc.reverse⟩]
  | c :: cs, acc =>
      if c = ' ' then
        (if acc.isEmpty then splitTokens cs [] else ⟨acc.reverse⟩ :: splitTokens cs [])
      else splitTokens cs (c :: acc)

/-- Modelled from the spec: tokenization stage (string → token sequence). -/
def TokenizeUnit.transform (s : String) : List String :=
  splitTokens s.data []

/-- Modelled from the spec: `LowercaseUnit` is not under `src/`; lowercases
every token. -/
def LowercaseUnit.transform (ts : List String) : List String :=
  ts.map (fun t => ⟨t.data.map Char.toLower⟩)

/-- Punctuation characters used by the concrete removal policy. -/
def punctChars : List Char := ['.', ',', '!', '?', ';', ':', '(', ')']

/-- Modelled from the spec: `PuncRemovalUnit` is not under `src/`; strips
punctuation characters from each token and drops tokens that become empty. -/
def PuncRemovalUnit.transform (ts : List String) : List String :=
  (ts.map (fun t => (⟨t.data.filter (fun c => ¬ (c ∈ punctChars))⟩ : String))).filter
    (fun t => ¬ t.data.isEmpty)

/-- Stopword list used by the concrete removal policy. -/
def stopWords : List String := ["is", "a", "an", "of", "in", "the", "to"]

/-- Modelled from the spec: `StopRemovalUnit` is not under `src/`; drops
stopword tokens. -/
def StopRemovalUnit.transform (ts : List String) : List String :=
  ts.filter (fun t => ¬ (t ∈ stopWords))

/-- The ordered normalization chain of `_prepare_process_units`
(source lines 65-72): tokenize → lowercase → punctuation removal →
stopword removal. -/
def processUnits (s : String) : List String :=
  StopRemovalUnit.transform
    (PuncRemovalUnit.transform
      (LowercaseUnit.transform
        (TokenizeUnit.transform s)))

/-! ## Letter n-gram unit -/

/-- Overlapping substrings of length `n` extracted at stride 1. -/
def slidingSubstrings (n : Nat) (cs : List Char) : List (List Char) :=
  (List.range (cs.length + 1 - n)).map (fun i => (cs.drop i).take n)

/-- Modelled from the spec: `NgramLetterUnit` is not under `src/`.  The spec
describes overlapping fixed-length letter n-grams with boundary markers; the
source constructs the unit with no arguments at both call sites (lines 85 and
138), so its n-gram length is its fixed default — trigrams, the spec's own
example — and each token is wrapped in `#` sentinels so every nonempty token
yields at least one n-gram. -/
def NgramLetterUnit.transform (tokens : List String) : List String :=
  tokens.flatMap
    (fun t => (slidingSubstrings 3 ('#' :: t.data ++ ['#'])).map (fun cs => (⟨cs⟩ : String)))

/-! ## Vocabulary builder and term hasher -/

/-- Modelled from the spec: `VocabularyUnit` is not under `src/`.  Builds the
term→index mapping, assigning indices starting at 1 in first-seen order
(index 0 reserved for out-of-vocabulary terms).  Represented as an
association list so that first-seen order is part of the state. -/
def buildTermIndex (terms : List String) : List (String × Nat) :=
  terms.foldl
    (fun acc t => if acc.any (fun q => q.1 = t) then acc else acc ++ [(t, acc.length + 1)])
    []

/-- Index lookup in the vocabulary: absent terms map to the reserved
out-of-vocabulary index 0. -/
def lookupIndex (ti : List (String × Nat)) (t : String) : Nat :=
  match ti.find? (fun q => q.1 = t) with
  | some q => q.2
  | none => 0

/-- Modelled from the spec: `WordHashingUnit` is not under `src/`.  Maps a
single term to a one-hot vector of length `dims = |vocabulary| + 1`, with the
single 1 at the term's index, or at index 0 if the term is absent. -/
def WordHashingUnit.transformTerm (ti : List (String × Nat)) (t : String) : List Int :=
  (List.range (ti.length + 1)).map (fun i => if i = lookupIndex ti t then (1 : Int) else 0)

/-- Modelled from the spec: the hasher applied per term of one token's n-gram
list, concatenated in token order (transform algorithm of the spec). -/
def WordHashingUnit.transformList (ti : List (String × Nat)) (terms : List String) : List Int :=
  terms.flatMap (WordHashingUnit.transformTerm ti)

/-! ## Length normalizer and sliding window assembler -/

/-- Pad / truncate side selector. -/
inductive PadMode where
  | pre
  | post
deriving DecidableEq, Repr

/-- Modelled from the spec: `FixedLengthUnit` is not under `src/`.  Pads or
truncates a flat numeric sequence to exact length `L` with pad value `v`,
pad side and truncate side each `pre` or `post`. -/
def FixedLengthUnit.transform (L : Nat) (v : Int) (padM truncM : PadMode)
    (xs : List Int) : List Int :=
  if xs.length < L then
    match padM with
    | .pre => List.replicate (L - xs.length) v ++ xs
    | .post => xs ++ List.replicate (L - xs.length) v
  else if L < xs.length then
    match truncM with
    | .pre => xs.drop (xs.length - L)
    | .post => xs.take L
  else xs

/-- Embedding of `np.reshape(text, (rows, -1))` (source line 156): the column
count is inferred from the data length, and the flat sequence is cut into
`rows` consecutive rows. -/
def reshapeRows (rows : Nat) (xs : List Int) : List (List Int) :=
  (List.range rows).map (fun i => (xs.drop (i * (xs.length / rows))).take (xs.length / rows))

/-- Modelled from the spec: `SlidingWindowUnit` is not under `src/`.  The
source constructs it with the window size only (line 144); window `i` is the
concatenation of rows `[i, i + w)`, extracted at stride 1 over the whole row
matrix. -/
def SlidingWindowUnit.transform (w : Nat) (rows : List (List Int)) : List (List Int) :=
  (List.range (rows.length + 1 - w)).map (fun i => ((rows.drop i).take w).flatten)

/-! ## Data model: records, data pack, context -/

/-- A raw input record.  The source takes Python tuples: 5-tuples
(left id, right id, left text, right text, label) or 4-tuples without
the label. -/
inductive InputRec where
  | rec5 (idLeft idRight textLeft textRight : String) (label : Int)
  | rec4 (idLeft idRight textLeft textRight : String)
deriving DecidableEq, Repr

def InputRec.idLeft : InputRec → String
  | .rec5 a _ _ _ _ => a
  | .rec4 a _ _ _ => a

def InputRec.idRight : InputRec → String
  | .rec5 _ b _ _ _ => b
  | .rec4 _ b _ _ => b

def InputRec.textLeft : InputRec → String
  | .rec5 _ _ tl _ _ => tl
  | .rec4 _ _ tl _ => tl

def InputRec.textRight : InputRec → String
  | .rec5 _ _ _ tr _ => tr
  | .rec4 _ _ _ tr => tr

def InputRec.isRec5 : InputRec → Bool
  | .rec5 _ _ _ _ _ => true
  | .rec4 _ _ _ _ => false

/-- A text cell of the data pack: a raw string before transformation, a
window tensor after `transform` overwrote it in place. -/
inductive CellVal where
  | raw (s : String)
  | tensor (t : List (List Int))
deriving DecidableEq, Repr

/-- A row of the left frame of the data pack. -/
structure RowL where
  id_left : String
  text_left : CellVal
deriving DecidableEq, Repr

/-- A row of the right frame of the data pack. -/
structure RowR where
  id_right : String
  text_right : CellVal
deriving DecidableEq, Repr

/-- A row of the relation frame (label absent for test-stage records). -/
structure Relation where
  id_left : String
  id_right : String
  label : Option Int
deriving DecidableEq, Repr

/-- The fitted processing context stored on the data pack by `fit`
(source lines 110-116). -/
structure Context where
  term_index : List (String × Nat)
  dims : Nat
  input_shapes : List (Nat × Nat)
deriving DecidableEq, Repr

/-- Modelled from the spec: the `DataPack` output container is not under
`src/`.  It holds the left frame, the right frame, the relation frame and
the processing context (absent until `fit` populates it). -/
structure DataPack where
  left : List RowL
  right : List RowR
  relation : List Relation
  context : Option Context
deriving DecidableEq, Repr

/-- Error conditions of the pipeline. -/
inductive PrepError where
  | missingContext
  | wrongArity
  | typeError
deriving DecidableEq, Repr

/-! ## Segmentation -/

/-- Modelled from the spec: `SegmentMixin.segment` is not under `src/`.
Converts one raw record into its left row, right row and relation row; a
record of the wrong arity for the declared stage fails fast (error handling
design of the spec): the train stage expects 5-tuples with a label, any
other stage expects 4-tuples without one. -/
def segmentRecord (stage : String) : InputRec → Except PrepError (RowL × RowR × Relation)
  | .rec5 a b tl tr lab =>
      if stage = "train" then
        .ok (⟨a, .raw tl⟩, ⟨b, .raw tr⟩, ⟨a, b, some lab⟩)
      else .error .wrongArity
  | .rec4 a b tl tr =>
      if stage = "train" then .error .wrongArity
      else .ok (⟨a, .raw tl⟩, ⟨b, .raw tr⟩, ⟨a, b, none⟩)

/-- Modelled from the spec: segmentation of a whole input list into the three
frames of the output container, keeping record order. -/
def segmentRecs (stage : String) : List InputRec →
    Except PrepError (List RowL × List RowR × List Relation)
  | [] => .ok ([], [], [])
  | r :: rs =>
      match segmentRecord stage r with
      | .error e => .error e
      | .ok (l, rr, rel) =>
          match segmentRecs stage rs with
          | .error e => .error e
          | .ok (ls, rrs, rels) => .ok (l :: ls, rr :: rrs, rel :: rels)

/-! ## The preprocessor state -/

/-- The `CDSSMPreprocessor` state: configuration fixed by `__init__`
(source lines 42-63) plus the held data pack (`self.datapack`, `None`
until `fit` or a test-stage `transform` sets it). -/
structure CDSSMPreprocessor where
  datapack : Option DataPack
  sliding_window : Nat
  window_nb : Nat
  pad_value : Int
  pad_mode : PadMode
  truncate_mode : PadMode
  text_length : Nat
deriving DecidableEq, Repr

/-- Embedding of `CDSSMPreprocessor.__init__` (source lines 42-63):
`text_length = window_nb + sliding_window - 1`, no data pack yet. -/
def CDSSMPreprocessor.init (sliding_window window_nb : Nat) (pad_value : Int)
    (pad_mode truncate_mode : PadMode) : CDSSMPreprocessor :=
  { datapack := none
    sliding_window := sliding_window
    window_nb := window_nb
    pad_value := pad_value
    pad_mode := pad_mode
    truncate_mode := truncate_mode
    text_length := window_nb + sliding_window - 1 }

/-! ## fit -/

/-- Terms one text contributes during `fit`: the normalization chain with the
n-gram unit appended as the last unit (source lines 83-97). -/
def fitTerms (s : String) : List String :=
  NgramLetterUnit.transform (processUnits s)

/-- Terms a cell contributes during `fit`.  `fit` always segments its inputs
first, so the cells it reads are raw strings; the tensor branch is
unreachable there. -/
def cellFitTerms : CellVal → List String
  | .raw s => fitTerms s
  | .tensor _ => []

/-- Embedding of `CDSSMPreprocessor.fit` (source lines 74-117): segment the
inputs at stage `train`, pool the terms of every left text then of every
right text, build the vocabulary, and store `term_index`, `dims` and
`input_shapes` in the context of the freshly segmented data pack.  Note the
source's `fit` takes no stage argument and hard-codes `stage='train'`
(line 90). -/
def CDSSMPreprocessor.fit (p : CDSSMPreprocessor) (inputs : List InputRec) :
    Except PrepError CDSSMPreprocessor :=
  match segmentRecs "train" inputs with
  | .error e => .error e
  | .ok (l, r, rel) =>
      let vocab :=
        (l.map RowL.text_left).flatMap cellFitTerms
          ++ (r.map RowR.text_right).flatMap cellFitTerms
      let ti := buildTermIndex vocab
      let dim := ti.length + 1
      let ctx : Context :=
        { term_index := ti
          dims := dim
          input_shapes :=
            [(p.window_nb, dim * p.sliding_window), (p.window_nb, dim * p.sliding_window)] }
      .ok { p with datapack := some { left := l, right := r, relation := rel, context := some ctx } }

/-! ## transform -/

/-- The per-side transformation pipeline of `transform` (source lines
148-157): normalization chain, then per token the n-gram unit, then the term
hasher, then flattening, then the length normalizer to
`text_length * dims`, then reshaping to `text_length` rows, then the sliding
window assembler. -/
def sideTensor (p : CDSSMPreprocessor) (ctx : Context) (s : String) : List (List Int) :=
  let toks := processUnits s
  let grouped := toks.map (fun term => NgramLetterUnit.transform [term])
  let hashed := grouped.map (fun terms => WordHashingUnit.transformList ctx.term_index terms)
  let flat := hashed.flatten
  let fixed :=
    FixedLengthUnit.transform (p.text_length * ctx.dims) p.pad_value p.pad_mode
      p.truncate_mode flat
  let rows := reshapeRows p.text_length fixed
  SlidingWindowUnit.transform p.sliding_window rows

/-- Processing of the left frame rows, in order (source lines 148-158): each
raw cell is overwritten with its window tensor; a cell already holding a
tensor is not a string and the normalization chain fails on it. -/
def processLeft (p : CDSSMPreprocessor) (ctx : Context) :
    List RowL → Except PrepError (List RowL)
  | [] => .ok []
  | row :: rest =>
      match row.text_left with
      | .raw s =>
          match processLeft p ctx rest with
          | .error e => .error e
          | .ok out => .ok ({ row with text_left := .tensor (sideTensor p ctx s) } :: out)
      | .tensor _ => .error .typeError

/-- Processing of the right frame rows, in order (source lines 160-170). -/
def processRight (p : CDSSMPreprocessor) (ctx : Context) :
    List RowR → Except PrepError (List RowR)
  | [] => .ok []
  | row :: rest =>
      match row.text_right with
      | .raw s =>
          match processRight p ctx rest with
          | .error e => .error e
          | .ok out => .ok ({ row with text_right := .tensor (sideTensor p ctx s) } :: out)
      | .tensor _ => .error .typeError

/-- Embedding of `CDSSMPreprocessor.transform` (source lines 119-172).  The
`validate_context` decorator is not under `src/` and is modelled from the
spec: transform invoked before fit fails immediately with a missing-context
condition.  For stage `test` the inputs are re-segmented into a new data
pack; the spec states that the output container carries the shared
processing context, so the re-segmented pack keeps the fitted context.  For
any other stage the held data pack is reused and the `inputs` argument is
not read.  Both frames are processed row by row and the result replaces the
held pack. -/
def CDSSMPreprocessor.transform (p : CDSSMPreprocessor) (inputs : List InputRec)
    (stage : String) : Except PrepError (DataPack × CDSSMPreprocessor) :=
  match p.datapack with
  | none => .error .missingContext
  | some dp0 =>
      let dpE : Except PrepError DataPack :=
        if stage = "test" then
          match segmentRecs "test" inputs with
          | .error e => .error e
          | .ok (l, r, rel) =>
              .ok { left := l, right := r, relation := rel, context := dp0.context }
        else .ok dp0
      match dpE with
      | .error e => .error e
      | .ok dp =>
          match dp.context with
          | none => .error .missingContext
          | some ctx =>
              match processLeft p ctx dp.left with
              | .error e => .error e
              | .ok newL =>
                  match processRight p ctx dp.right with
                  | .error e => .error e
                  | .ok newR =>
                      let dp2 : DataPack :=
                        { dp with left := newL, right := newR }
                      .ok (dp2, { p with datapack := some dp2 })

/-! ## Spec-side descriptions (for comparison with the source embedding) -/

/-- Pooled term list of a corpus as the spec words it: every left text across
the corpus, then every right text, each through normalization and the n-gram
unit, flattened into one sequence. -/
def corpusTerms (inputs : List InputRec) : List String :=
  (inputs.map InputRec.textLeft).flatMap fitTerms
    ++ (inputs.map InputRec.textRight).flatMap fitTerms

/-- Duplicate removal keeping the first occurrence, with an explicit seen
accumulator. -/
def dedupSeen (seen : List String) : List String → List String
  | [] => []
  | t :: ts => if t ∈ seen then dedupSeen seen ts else t :: dedupSeen (t :: seen) ts

/-- Duplicate removal keeping the first occurrence. -/
def dedupKeepFirst (l : List String) : List String := dedupSeen [] l

/-- Association of consecutive indices starting at `n` to a list of terms. -/
def indexFromOne (n : Nat) : List String → List (String × Nat)
  | [] => []
  | t :: ts => (t, n) :: indexFromOne (n + 1) ts

/-- Following the spec's words for the per-side transform algorithm:
normalization → for each token, n-gram unit then term hasher per term,
concatenated in token order → flatten to one numeric sequence → length
normalizer to `text_length × dims` → reshape to `(text_length, dims)` →
sliding window assembler. -/
def specTransformSide (p : CDSSMPreprocessor) (ctx : Context) (s : String) :
    List (List Int) :=
  let toks := processUnits s
  let flat :=
    toks.flatMap
      (fun tok =>
        (NgramLetterUnit.transform [tok]).flatMap
          (WordHashingUnit.transformTerm ctx.term_index))
  let normalized :=
    FixedLengthUnit.transform (p.text_length * ctx.dims) p.pad_value p.pad_mode
      p.truncate_mode flat
  let rows :=
    (List.range p.text_length).map (fun i => (normalized.drop (i * ctx.dims)).take ctx.dims)
  SlidingWindowUnit.transform p.sliding_window rows

/-! ## Shape lemmas for the units -/

theorem fixedLengthUnit_output_length (L : Nat) (v : Int) (padM truncM : PadMode)
    (xs : List Int) : (FixedLengthUnit.transform L v padM truncM xs).length = L := by
  unfold FixedLengthUnit.transform
  by_cases h1 : xs.length < L
  · simp only [h1, if_true]
    cases padM <;> simp <;> omega
  · simp only [h1, if_false]
    by_cases h2 : L < xs.length
    · simp only [h2, if_true]
      cases truncM <;> simp <;> omega
    · simp only [h2, if_false]; omega

theorem fixedLengthUnit_output_mem (L : Nat) (v : Int) (padM truncM : PadMode)
    (xs : List Int) (x : Int) (hx : x ∈ FixedLengthUnit.transform L v padM truncM xs) :
    x ∈ xs ∨ x = v := by
  unfold FixedLengthUnit.transform at hx
  by_cases h1 : xs.length < L
  · simp only [h1, if_true] at hx
    cases padM <;> simp only [List.mem_append] at hx <;>
      rcases hx with h | h
    · right; exact List.eq_of_mem_replicate h
    · left; exact h
    · left; exact h
    · right; exact List.eq_of_mem_replicate h
  · simp only [h1, if_false] at hx
    by_cases h2 : L < xs.length
    · simp only [h2, if_true] at hx
      cases truncM
      · exact Or.inl (List.drop_subset _ _ hx)
      · exact Or.inl (List.take_subset _ _ hx)
    · simp only [h2, if_false] at hx; exact Or.inl hx

theorem List.flatten_length_const {α : Type} (c : Nat) (l : List (List α))
    (h : ∀ x ∈ l, x.length = c) : l.flatten.length = l.length * c := by
  induction l with
  | nil => simp
  | cons a l ih =>
      simp only [List.flatten_cons, List.length_append, List.length_cons]
      rw [h a (List.mem_cons_self a l), ih (fun x hx => h x (List.mem_cons_of_mem a hx))]
      ring

theorem reshapeRows_length (r : Nat) (xs : List Int) : (reshapeRows r xs).length = r := by
  simp [reshapeRows]

theorem reshapeRows_row_length (r c : Nat) (xs : List Int)
    (hr : 0 < r) (hlen : xs.length = r * c) :
    ∀ row ∈ reshapeRows r xs, row.length = c := by
  intro row hrow
  simp only [reshapeRows, List.mem_map, List.mem_range] at hrow
  obtain ⟨i, hi, hrow⟩ := hrow
  have hc : xs.length / r = c := by
    rw [hlen, Nat.mul_div_cancel_left c hr]
  subst hrow
  rw [hc]
  simp only [List.length_take, List.length_drop, hlen]
  have : i * c + c ≤ r * c := by
    have : i + 1 ≤ r := hi
    calc i * c + c = (i + 1) * c := by ring
    _ ≤ r * c := Nat.mul_le_mul_right c this
  omega

theorem slidingWindowUnit_window_count (w : Nat) (rows : List (List Int)) :
    (SlidingWindowUnit.transform w rows).length = rows.length + 1 - w := by
  simp [SlidingWindowUnit.transform]

theorem SlidingWindowUnit.window_length (w c : Nat) (rows : List (List Int))
    (h : ∀ row ∈ rows, row.length = c) :
    ∀ win ∈ SlidingWindowUnit.transform w rows, win.length = w * c := by
  intro win hwin
  simp only [SlidingWindowUnit.transform, List.mem_map, List.mem_range] at hwin
  obtain ⟨i, hi, hwin⟩ := hwin
  subst hwin
  have htk : ((rows.drop i).take w).length = w := by
    simp only [List.length_take, List.length_drop]
    omega
  rw [List.flatten_length_const c _ (fun x hx =>
    h x (List.drop_subset i rows (List.take_subset w _ hx))), htk]

theorem sideTensor_shape (p : CDSSMPreprocessor) (ctx : Context) (s : String)
    (hw : 1 ≤ p.sliding_window) (hnb : 1 ≤ p.window_nb)
    (htl : p.text_length = p.window_nb + p.sliding_window - 1) :
    (sideTensor p ctx s).length = p.window_nb ∧
      ∀ win ∈ sideTensor p ctx s, win.length = ctx.dims * p.sliding_window := by
  have htl0 : 0 < p.text_length := by omega
  unfold sideTensor
  set flat := ((processUnits s).map (fun term => NgramLetterUnit.transform [term])).map
    (fun terms => WordHashingUnit.transformList ctx.term_index terms) |>.flatten with hflat
  have hfx : (FixedLengthUnit.transform (p.text_length * ctx.dims) p.pad_value p.pad_mode
      p.truncate_mode flat).length = p.text_length * ctx.dims :=
    fixedLengthUnit_output_length _ _ _ _ _
  constructor
  · rw [slidingWindowUnit_window_count, reshapeRows_length]
    omega
  · intro win hwin
    have hrow := reshapeRows_row_length p.text_length ctx.dims _ htl0 hfx
    have := SlidingWindowUnit.window_length p.sliding_window ctx.dims _ hrow win hwin
    rw [this, Nat.mul_comm]

/-! ## N-gram unit lemmas -/

theorem NgramLetterUnit.transform_flat (tokens : List String) :
    NgramLetterUnit.transform tokens =
      (tokens.map (fun t => NgramLetterUnit.transform [t])).flatten := by
  induction tokens with
  | nil => rfl
  | cons t ts ih =>
      simp only [NgramLetterUnit.transform, List.flatMap_cons, List.map_cons,
        List.flatten_cons] at *
      rw [ih]
      simp [NgramLetterUnit.transform]

theorem NgramLetterUnit.length_mem (tokens : List String) (g : String)
    (hg : g ∈ NgramLetterUnit.transform tokens) : g.length = 3 := by
  simp only [NgramLetterUnit.transform, List.mem_flatMap, List.mem_map,
    slidingSubstrings, List.mem_range] at hg
  obtain ⟨t, _, ⟨cs, ⟨i, hi, hcs⟩, hg⟩⟩ := hg
  subst hg
  subst hcs
  show (List.take 3 (List.drop i ('#' :: t.data ++ ['#']))).length = 3
  simp only [List.length_take, List.length_drop, List.length_append,
    List.length_cons] at *
  omega

/-! ## Vocabulary builder lemmas -/

theorem dedupSeen_congr (s1 s2 : List String) (l : List String)
    (h : ∀ x, x ∈ s1 ↔ x ∈ s2) : dedupSeen s1 l = dedupSeen s2 l := by
  induction l generalizing s1 s2 with
  | nil => rfl
  | cons t ts ih =>
      simp only [dedupSeen]
      by_cases ht : t ∈ s1
      · rw [if_pos ht, if_pos ((h t).mp ht)]
        exact ih s1 s2 h
      · rw [if_neg ht, if_neg (fun hc => ht ((h t).mpr hc))]
        congr 1
        refine ih _ _ (fun x => ?_)
        simp only [List.mem_cons]
        exact or_congr Iff.rfl (h x)

theorem indexFromOne_length (n : Nat) (l : List String) :
    (indexFromOne n l).length = l.length := by
  induction l generalizing n with
  | nil => rfl
  | cons t ts ih => simp [indexFromOne, ih]

theorem mem_dedupSeen (seen l : List String) (x : String) :
    x ∈ dedupSeen seen l ↔ x ∈ l ∧ x ∉ seen := by
  induction l generalizing seen with
  | nil => simp [dedupSeen]
  | cons t ts ih =>
      simp only [dedupSeen]
      by_cases ht : t ∈ seen
      · rw [if_pos ht, ih]
        simp only [List.mem_cons]
        constructor
        · rintro ⟨hx, hns⟩
          exact ⟨Or.inr hx, hns⟩
        · rintro ⟨hx | hx, hns⟩
          · subst hx
            exact absurd ht hns
          · exact ⟨hx, hns⟩
      · rw [if_neg ht]
        simp only [List.mem_cons, ih]
        constructor
        · rintro (hx | ⟨hx, hns⟩)
          · subst hx
            exact ⟨Or.inl rfl, ht⟩
          · push_neg at hns
            exact ⟨Or.inr hx, hns.2⟩
        · rintro ⟨hx | hx, hns⟩
          · subst hx
            exact Or.inl rfl
          · by_cases hxt : x = t
            · exact Or.inl hxt
            · refine Or.inr ⟨hx, ?_⟩
              push_neg
              exact ⟨hxt, hns⟩

theorem nodup_dedupSeen (seen l : List String) : (dedupSeen seen l).Nodup := by
  induction l generalizing seen with
  | nil => simp [dedupSeen]
  | cons t ts ih =>
      simp only [dedupSeen]
      by_cases ht : t ∈ seen
      · rw [if_pos ht]; exact ih seen
      · rw [if_neg ht]
        refine List.Nodup.cons ?_ (ih (t :: seen))
        intro hc
        rw [mem_dedupSeen] at hc
        exact hc.2 (List.mem_cons_self t seen)

theorem buildTermIndex_foldl (l : List String) (acc : List (String × Nat)) :
    l.foldl
      (fun acc t =>
        if acc.any (fun q => q.1 = t) then acc else acc ++ [(t, acc.length + 1)]) acc =
      acc ++ indexFromOne (acc.length + 1) (dedupSeen (acc.map Prod.fst) l) := by
  induction l generalizing acc with
  | nil => simp [dedupSeen, indexFromOne]
  | cons t ts ih =>
      simp only [List.foldl_cons, dedupSeen]
      have hmem : (acc.any (fun q => q.1 = t) = true) ↔ t ∈ acc.map Prod.fst := by
        simp [List.any_eq_true, List.mem_map]
      by_cases ht : t ∈ acc.map Prod.fst
      · rw [if_pos (hmem.mpr ht), if_pos ht]
        exact ih acc
      · rw [if_neg (fun hc => ht (hmem.mp hc)), if_neg ht]
        rw [ih (acc ++ [(t, acc.length + 1)])]
        simp only [List.map_append, List.map_cons, List.map_nil, List.length_append,
          List.length_cons, List.length_nil, indexFromOne]
        rw [List.append_assoc]
        simp only [List.singleton_append, indexFromOne]
        have hseen : dedupSeen (acc.map Prod.fst ++ [t]) ts =
            dedupSeen (t :: acc.map Prod.fst) ts := by
          refine dedupSeen_congr _ _ ts (fun x => ?_)
          simp only [List.mem_append, List.mem_singleton, List.mem_cons]
          tauto
        rw [hseen]

theorem buildTermIndex_eq (l : List String) :
    buildTermIndex l = indexFromOne 1 (dedupKeepFirst l) := by
  have := buildTermIndex_foldl l []
  simpa [buildTermIndex, dedupKeepFirst] using this

theorem dedupKeepFirst_toFinset (l : List String) :
    (dedupKeepFirst l).toFinset = l.toFinset := by
  refine Finset.ext (fun x => ?_)
  simp only [List.mem_toFinset, dedupKeepFirst, mem_dedupSeen, List.not_mem_nil,
    not_false_iff, and_true]

theorem nodup_dedupKeepFirst (l : List String) : (dedupKeepFirst l).Nodup :=
  nodup_dedupSeen [] l

theorem buildTermIndex_length (l : List String) :
    (buildTermIndex l).length = l.toFinset.card := by
  rw [buildTermIndex_eq, indexFromOne_length, ← dedupKeepFirst_toFinset]
  exact (List.toFinset_card_of_nodup (nodup_dedupKeepFirst l)).symm

/-! ## Segmentation and fit characterization -/

/-- The left frame rows segmentation produces from a record list. -/
def leftRowsOf (inputs : List InputRec) : List RowL :=
  inputs.map (fun q => ⟨q.idLeft, .raw q.textLeft⟩)

/-- The right frame rows segmentation produces from a record list. -/
def rightRowsOf (inputs : List InputRec) : List RowR :=
  inputs.map (fun q => ⟨q.idRight, .raw q.textRight⟩)

def InputRec.labelOf : InputRec → Option Int
  | .rec5 _ _ _ _ lab => some lab
  | .rec4 _ _ _ _ => none

/-- The relation frame rows segmentation produces from a record list. -/
def relRowsOf (inputs : List InputRec) : List Relation :=
  inputs.map (fun q => ⟨q.idLeft, q.idRight, q.labelOf⟩)

theorem segmentRecs_train_ok (inputs : List InputRec)
    (l : List RowL) (r : List RowR) (rel : List Relation)
    (h : segmentRecs "train" inputs = .ok (l, r, rel)) :
    (∀ q ∈ inputs, q.isRec5 = true) ∧
      l = leftRowsOf inputs ∧ r = rightRowsOf inputs ∧ rel = relRowsOf inputs := by
  induction inputs generalizing l r rel with
  | nil =>
      simp only [segmentRecs] at h
      injection h with h
      injection h with h1 h
      injection h with h2 h3
      subst h1; subst h2; subst h3
      simp [leftRowsOf, rightRowsOf, relRowsOf]
  | cons q qs ih =>
      cases q with
      | rec5 a b tl tr lab =>
          simp only [segmentRecs, segmentRecord, if_pos rfl] at h
          cases hrest : segmentRecs "train" qs with
          | error e => rw [hrest] at h; exact absurd h (by simp)
          | ok triple =>
              obtain ⟨ls, rrs, rels⟩ := triple
              rw [hrest] at h
              simp only at h
              injection h with h
              injection h with h1 h
              injection h with h2 h3
              obtain ⟨hall, hl, hr, hrel⟩ := ih ls rrs rels hrest
              subst h1; subst h2; subst h3
              refine ⟨?_, ?_, ?_, ?_⟩
              · intro x hx
                rcases List.mem_cons.mp hx with hx | hx
                · subst hx; rfl
                · exact hall x hx
              · simp [leftRowsOf, hl, InputRec.idLeft, InputRec.textLeft]
              · simp [rightRowsOf, hr, InputRec.idRight, InputRec.textRight]
              · simp [relRowsOf, hrel, InputRec.idLeft, InputRec.idRight, InputRec.labelOf]
      | rec4 a b tl tr =>
          simp only [segmentRecs, segmentRecord, if_pos rfl] at h
          exact absurd h (by simp)

theorem segmentRecs_stage_ok (stage : String) (hstage : stage ≠ "train")
    (inputs : List InputRec)
    (l : List RowL) (r : List RowR) (rel : List Relation)
    (h : segmentRecs stage inputs = .ok (l, r, rel)) :
    (∀ q ∈ inputs, q.isRec5 = false) ∧
      l = leftRowsOf inputs ∧ r = rightRowsOf inputs ∧ rel = relRowsOf inputs := by
  induction inputs generalizing l r rel with
  | nil =>
      simp only [segmentRecs] at h
      injection h with h
      injection h with h1 h
      injection h with h2 h3
      subst h1; subst h2; subst h3
      simp [leftRowsOf, rightRowsOf, relRowsOf]
  | cons q qs ih =>
      cases q with
      | rec4 a b tl tr =>
          simp only [segmentRecs, segmentRecord, if_neg hstage] at h
          cases hrest : segmentRecs stage qs with
          | error e => rw [hrest] at h; exact absurd h (by simp)
          | ok triple =>
              obtain ⟨ls, rrs, rels⟩ := triple
              rw [hrest] at h
              simp only at h
              injection h with h
              injection h with h1 h
              injection h with h2 h3
              obtain ⟨hall, hl, hr, hrel⟩ := ih ls rrs rels hrest
              subst h1; subst h2; subst h3
              refine ⟨?_, ?_, ?_, ?_⟩
              · intro x hx
                rcases List.mem_cons.mp hx with hx | hx
                · subst hx; rfl
                · exact hall x hx
              · simp [leftRowsOf, hl, InputRec.idLeft, InputRec.textLeft]
              · simp [rightRowsOf, hr, InputRec.idRight, InputRec.textRight]
              · simp [relRowsOf, hrel, InputRec.idLeft, InputRec.idRight, InputRec.labelOf]
      | rec5 a b tl tr lab =>
          simp only [segmentRecs, segmentRecord, if_neg hstage] at h
          exact absurd h (by simp)

theorem segmentRecs_train_of_rec5 (inputs : List InputRec)
    (h : ∀ q ∈ inputs, q.isRec5 = true) :
    segmentRecs "train" inputs = .ok (leftRowsOf inputs, rightRowsOf inputs, relRowsOf inputs) := by
  induction inputs with
  | nil => rfl
  | cons q qs ih =>
      have hq := h q (List.mem_cons_self q qs)
      have hrest := ih (fun x hx => h x (List.mem_cons_of_mem q hx))
      cases q with
      | rec5 a b tl tr lab =>
          simp only [segmentRecs, segmentRecord, if_pos rfl, hrest]
          simp [leftRowsOf, rightRowsOf, relRowsOf, InputRec.idLeft, InputRec.idRight,
            InputRec.textLeft, InputRec.textRight, InputRec.labelOf]
      | rec4 a b tl tr => simp [InputRec.isRec5] at hq

theorem segmentRecs_stage_of_rec4 (stage : String) (hstage : stage ≠ "train")
    (inputs : List InputRec) (h : ∀ q ∈ inputs, q.isRec5 = false) :
    segmentRecs stage inputs = .ok (leftRowsOf inputs, rightRowsOf inputs, relRowsOf inputs) := by
  induction inputs with
  | nil => rfl
  | cons q qs ih =>
      have hq := h q (List.mem_cons_self q qs)
      have hrest := ih (fun x hx => h x (List.mem_cons_of_mem q hx))
      cases q with
      | rec4 a b tl tr =>
          simp only [segmentRecs, segmentRecord, if_neg hstage, hrest]
          simp [leftRowsOf, rightRowsOf, relRowsOf, InputRec.idLeft, InputRec.idRight,
            InputRec.textLeft, InputRec.textRight, InputRec.labelOf]
      | rec5 a b tl tr lab => simp [InputRec.isRec5] at hq

/-- The context `fit` stores, described through the spec-side pooled term
list. -/
def fitContext (p : CDSSMPreprocessor) (inputs : List InputRec) : Context :=
  let ti := buildTermIndex (corpusTerms inputs)
  { term_index := ti
    dims := ti.length + 1
    input_shapes :=
      [(p.window_nb, (ti.length + 1) * p.sliding_window),
       (p.window_nb, (ti.length + 1) * p.sliding_window)] }

/-- The data pack `fit` stores. -/
def fitPack (p : CDSSMPreprocessor) (inputs : List InputRec) : DataPack :=
  { left := leftRowsOf inputs
    right := rightRowsOf inputs
    relation := relRowsOf inputs
    context := some (fitContext p inputs) }

theorem fit_ok (p p' : CDSSMPreprocessor) (inputs : List InputRec)
    (h : p.fit inputs = .ok p') :
    (∀ q ∈ inputs, q.isRec5 = true) ∧ p' = { p with datapack := some (fitPack p inputs) } := by
  unfold CDSSMPreprocessor.fit at h
  cases hseg : segmentRecs "train" inputs with
  | error e => rw [hseg] at h; exact absurd h (by simp)
  | ok triple =>
      obtain ⟨l, r, rel⟩ := triple
      rw [hseg] at h
      simp only at h
      obtain ⟨hall, hl, hr, hrel⟩ := segmentRecs_train_ok inputs l r rel hseg
      subst hl; subst hr; subst hrel
      refine ⟨hall, ?_⟩
      injection h with h
      rw [← h]
      have hvocab :
          ((leftRowsOf inputs).map RowL.text_left).flatMap cellFitTerms
              ++ ((rightRowsOf inputs).map RowR.text_right).flatMap cellFitTerms =
            corpusTerms inputs := by
        simp only [leftRowsOf, rightRowsOf, corpusTerms, List.map_map, List.flatMap_def,
          List.map_map]
        rfl
      simp only [fitPack, fitContext, hvocab]

theorem fit_of_rec5 (p : CDSSMPreprocessor) (inputs : List InputRec)
    (h : ∀ q ∈ inputs, q.isRec5 = true) :
    p.fit inputs = .ok { p with datapack := some (fitPack p inputs) } := by
  unfold CDSSMPreprocessor.fit
  rw [segmentRecs_train_of_rec5 inputs h]
  simp only
  have hvocab :
      ((leftRowsOf inputs).map RowL.text_left).flatMap cellFitTerms
          ++ ((rightRowsOf inputs).map RowR.text_right).flatMap cellFitTerms =
        corpusTerms inputs := by
    simp only [leftRowsOf, rightRowsOf, corpusTerms, List.map_map, List.flatMap_def,
      List.map_map]
    rfl
  simp only [fitPack, fitContext, hvocab]

/-! ## Row processing lemmas -/

theorem processLeft_ok (p : CDSSMPreprocessor) (ctx : Context) (rows out : List RowL)
    (h : processLeft p ctx rows = .ok out) :
    List.Forall₂
      (fun row row2 => ∃ s0, row.text_left = .raw s0 ∧
        row2 = ⟨row.id_left, .tensor (sideTensor p ctx s0)⟩) rows out := by
  induction rows generalizing out with
  | nil =>
      simp only [processLeft] at h
      injection h with h
      subst h
      exact List.Forall₂.nil
  | cons row rest ih =>
      simp only [processLeft] at h
      cases hc : row.text_left with
      | raw s0 =>
          rw [hc] at h
          cases hrest : processLeft p ctx rest with
          | error e => rw [hrest] at h; exact absurd h (by simp)
          | ok outRest =>
              rw [hrest] at h
              simp only at h
              injection h with h
              subst h
              exact List.Forall₂.cons ⟨s0, hc, rfl⟩ (ih outRest hrest)
      | tensor t =>
          rw [hc] at h
          exact absurd h (by simp)

theorem processRight_ok (p : CDSSMPreprocessor) (ctx : Context) (rows out : List RowR)
    (h : processRight p ctx rows = .ok out) :
    List.Forall₂
      (fun row row2 => ∃ s0, row.text_right = .raw s0 ∧
        row2 = ⟨row.id_right, .tensor (sideTensor p ctx s0)⟩) rows out := by
  induction rows generalizing out with
  | nil =>
      simp only [processRight] at h
      injection h with h
      subst h
      exact List.Forall₂.nil
  | cons row rest ih =>
      simp only [processRight] at h
      cases hc : row.text_right with
      | raw s0 =>
          rw [hc] at h
          cases hrest : processRight p ctx rest with
          | error e => rw [hrest] at h; exact absurd h (by simp)
          | ok outRest =>
              rw [hrest] at h
              simp only at h
              injection h with h
              subst h
              exact List.Forall₂.cons ⟨s0, hc, rfl⟩ (ih outRest hrest)
      | tensor t =>
          rw [hc] at h
          exact absurd h (by simp)

theorem processLeft_of_raw (p : CDSSMPreprocessor) (ctx : Context)
    (inputs : List InputRec) :
    processLeft p ctx (leftRowsOf inputs) =
      .ok (inputs.map (fun q => ⟨q.idLeft, .tensor (sideTensor p ctx q.textLeft)⟩)) := by
  induction inputs with
  | nil => rfl
  | cons q qs ih =>
      simp only [leftRowsOf] at ih
      simp only [leftRowsOf, List.map_cons, processLeft, ih]

theorem processRight_of_raw (p : CDSSMPreprocessor) (ctx : Context)
    (inputs : List InputRec) :
    processRight p ctx (rightRowsOf inputs) =
      .ok (inputs.map (fun q => ⟨q.idRight, .tensor (sideTensor p ctx q.textRight)⟩)) := by
  induction inputs with
  | nil => rfl
  | cons q qs ih =>
      simp only [rightRowsOf] at ih
      simp only [rightRowsOf, List.map_cons, processRight, ih]

/-! ## Transform characterization lemmas -/

theorem transform_noTest_ok (p : CDSSMPreprocessor) (ins : List InputRec) (stage : String)
    (hstage : stage ≠ "test") (dp2 : DataPack) (p2 : CDSSMPreprocessor)
    (h : p.transform ins stage = .ok (dp2, p2)) :
    ∃ dp ctx, p.datapack = some dp ∧ dp.context = some ctx ∧
      processLeft p ctx dp.left = .ok dp2.left ∧
      processRight p ctx dp.right = .ok dp2.right ∧
      dp2.relation = dp.relation ∧ dp2.context = dp.context ∧
      p2 = { p with datapack := some dp2 } := by
  unfold CDSSMPreprocessor.transform at h
  cases hdp : p.datapack with
  | none => rw [hdp] at h; exact absurd h (by simp)
  | some dp =>
      rw [hdp] at h
      simp only [if_neg hstage] at h
      cases hctx : dp.context with
      | none => rw [hctx] at h; exact absurd h (by simp)
      | some ctx =>
          rw [hctx] at h
          simp only at h
          cases hl : processLeft p ctx dp.left with
          | error e => rw [hl] at h; exact absurd h (by simp)
          | ok newL =>
              rw [hl] at h
              simp only at h
              cases hr : processRight p ctx dp.right with
              | error e => rw [hr] at h; exact absurd h (by simp)
              | ok newR =>
                  rw [hr] at h
                  simp only at h
                  injection h with h
                  injection h with hdp2 hp2
                  refine ⟨dp, ctx, rfl, hctx, ?_, ?_, ?_, ?_, ?_⟩
                  · rw [← hdp2]; exact hl
                  · rw [← hdp2]; exact hr
                  · rw [← hdp2]
                  · rw [← hdp2]; exact hctx.symm
                  · rw [← hp2, ← hdp2]

theorem transform_test_ok (p : CDSSMPreprocessor) (ins : List InputRec)
    (dp2 : DataPack) (p2 : CDSSMPreprocessor)
    (h : p.transform ins "test" = .ok (dp2, p2)) :
    ∃ dp0 ctx, p.datapack = some dp0 ∧ dp0.context = some ctx ∧
      (∀ q ∈ ins, q.isRec5 = false) ∧
      processLeft p ctx (leftRowsOf ins) = .ok dp2.left ∧
      processRight p ctx (rightRowsOf ins) = .ok dp2.right ∧
      dp2.relation = relRowsOf ins ∧ dp2.context = some ctx ∧
      p2 = { p with datapack := some dp2 } := by
  unfold CDSSMPreprocessor.transform at h
  cases hdp : p.datapack with
  | none => rw [hdp] at h; exact absurd h (by simp)
  | some dp0 =>
      rw [hdp] at h
      simp only [if_pos rfl] at h
      cases hseg : segmentRecs "test" ins with
      | error e => rw [hseg] at h; exact absurd h (by simp)
      | ok triple =>
          obtain ⟨l, r, rel⟩ := triple
          rw [hseg] at h
          simp at h
          obtain ⟨h4, hl', hr', hrel'⟩ :=
            segmentRecs_stage_ok "test" (by decide) ins l r rel hseg
          subst hl'; subst hr'; subst hrel'
          cases hctx : dp0.context with
          | none => rw [hctx] at h; exact absurd h (by simp)
          | some ctx =>
              rw [hctx] at h
              simp at h
              cases hl : processLeft p ctx (leftRowsOf ins) with
              | error e => rw [hl] at h; exact absurd h (by simp)
              | ok newL =>
                  rw [hl] at h
                  simp only at h
                  cases hr : processRight p ctx (rightRowsOf ins) with
                  | error e => rw [hr] at h; exact absurd h (by simp)
                  | ok newR =>
                      rw [hr] at h
                      simp only at h
                      injection h with h
                      injection h with hdp2 hp2
                      refine ⟨dp0, ctx, rfl, hctx, h4, ?_, ?_, ?_, ?_, ?_⟩
                      · rw [← hdp2]; exact hl
                      · rw [← hdp2]; exact hr
                      · rw [← hdp2]
                      · rw [← hdp2]
                      · rw [← hp2, ← hdp2]

theorem transform_noTest_inputs (p : CDSSMPreprocessor) (a b : List InputRec)
    (stage : String) (hstage : stage ≠ "test") :
    p.transform a stage = p.transform b stage := by
  unfold CDSSMPreprocessor.transform
  cases p.datapack with
  | none => rfl
  | some dp0 => simp only [if_neg hstage]

/-- The data pack a successful test-stage `transform` produces from raw
records. -/
def testTransformedPack (p : CDSSMPreprocessor) (ctx : Context)
    (ins : List InputRec) : DataPack :=
  { left := ins.map (fun q => ⟨q.idLeft, .tensor (sideTensor p ctx q.textLeft)⟩)
    right := ins.map (fun q => ⟨q.idRight, .tensor (sideTensor p ctx q.textRight)⟩)
    relation := relRowsOf ins
    context := some ctx }

theorem transform_test_eval (p : CDSSMPreprocessor) (dp0 : DataPack) (ctx : Context)
    (ins : List InputRec)
    (hdp : p.datapack = some dp0) (hctx : dp0.context = some ctx)
    (h4 : ∀ q ∈ ins, q.isRec5 = false) :
    p.transform ins "test" = .ok
      (testTransformedPack p ctx ins,
       { p with datapack := some (testTransformedPack p ctx ins) }) := by
  unfold CDSSMPreprocessor.transform
  rw [hdp]
  simp [segmentRecs_stage_of_rec4 "test" (by decide) ins h4, hctx,
    processLeft_of_raw, processRight_of_raw, testTransformedPack]

/-! ## Per-side pipeline lemmas -/

theorem sideTensor_eq_spec (p : CDSSMPreprocessor) (ctx : Context) (s : String)
    (htl : 0 < p.text_length) :
    sideTensor p ctx s = specTransformSide p ctx s := by
  simp only [sideTensor, specTransformSide]
  have hflat : (((processUnits s).map (fun term => NgramLetterUnit.transform [term])).map
      (fun terms => WordHashingUnit.transformList ctx.term_index terms)).flatten =
      (processUnits s).flatMap (fun tok => (NgramLetterUnit.transform [tok]).flatMap
        (WordHashingUnit.transformTerm ctx.term_index)) := by
    simp only [List.map_map, List.flatMap_def, WordHashingUnit.transformList]
    rfl
  rw [hflat]
  have hrows : reshapeRows p.text_length
      (FixedLengthUnit.transform (p.text_length * ctx.dims) p.pad_value p.pad_mode
        p.truncate_mode
        ((processUnits s).flatMap (fun tok => (NgramLetterUnit.transform [tok]).flatMap
          (WordHashingUnit.transformTerm ctx.term_index)))) =
      (List.range p.text_length).map (fun i =>
        ((FixedLengthUnit.transform (p.text_length * ctx.dims) p.pad_value p.pad_mode
          p.truncate_mode
          ((processUnits s).flatMap (fun tok => (NgramLetterUnit.transform [tok]).flatMap
            (WordHashingUnit.transformTerm ctx.term_index)))).drop (i * ctx.dims)).take
          ctx.dims) := by
    unfold reshapeRows
    rw [fixedLengthUnit_output_length, Nat.mul_div_cancel_left _ htl]
  rw [hrows]

theorem sideTensor_entries_oov (p : CDSSMPreprocessor) (ctx : Context) (s : String)
    (hti : ctx.term_index = []) :
    ∀ win ∈ sideTensor p ctx s, ∀ x ∈ win, x = p.pad_value ∨ x = 1 := by
  intro win hwin x hx
  unfold sideTensor at hwin
  simp only [SlidingWindowUnit.transform, List.mem_map, List.mem_range] at hwin
  obtain ⟨i, _, hwin⟩ := hwin
  subst hwin
  rw [List.mem_flatten] at hx
  obtain ⟨row, hrow, hx⟩ := hx
  have hrow2 := List.drop_subset _ _ (List.take_subset _ _ hrow)
  simp only [reshapeRows, List.mem_map, List.mem_range] at hrow2
  obtain ⟨j, _, hrow2⟩ := hrow2
  have hxfix : x ∈ FixedLengthUnit.transform (p.text_length * ctx.dims) p.pad_value
      p.pad_mode p.truncate_mode
      ((((processUnits s).map (fun term => NgramLetterUnit.transform [term])).map
        (fun terms => WordHashingUnit.transformList ctx.term_index terms)).flatten) := by
    subst hrow2
    exact List.drop_subset _ _ (List.take_subset _ _ hx)
  rcases fixedLengthUnit_output_mem _ _ _ _ _ _ hxfix with hxf | hxf
  · rw [List.mem_flatten] at hxf
    obtain ⟨vec, hvec, hxf⟩ := hxf
    simp only [List.mem_map] at hvec
    obtain ⟨terms, _, hvec⟩ := hvec
    subst hvec
    unfold WordHashingUnit.transformList at hxf
    rw [List.mem_flatMap] at hxf
    obtain ⟨t, _, hxf⟩ := hxf
    rw [hti] at hxf
    have : WordHashingUnit.transformTerm [] t = [1] := rfl
    rw [this] at hxf
    right
    exact (List.mem_singleton.mp hxf)
  · left; exact hxf

/-- The data pack a successful non-test-stage `transform` produces when the
held pack has raw cells segmented from `inputs` and relation frame `rel`. -/
def noTestTransformedPack (p : CDSSMPreprocessor) (ctx : Context)
    (inputs : List InputRec) (rel : List Relation) : DataPack :=
  { left := inputs.map (fun q => ⟨q.idLeft, .tensor (sideTensor p ctx q.textLeft)⟩)
    right := inputs.map (fun q => ⟨q.idRight, .tensor (sideTensor p ctx q.textRight)⟩)
    relation := rel
    context := some ctx }

theorem transform_noTest_eval (p : CDSSMPreprocessor) (inputs : List InputRec)
    (rel : List Relation) (ctx : Context) (ins2 : List InputRec) (stage : String)
    (hstage : stage ≠ "test")
    (hdp : p.datapack = some { left := leftRowsOf inputs, right := rightRowsOf inputs,
                               relation := rel, context := some ctx }) :
    p.transform ins2 stage = .ok
      (noTestTransformedPack p ctx inputs rel,
       { p with datapack := some (noTestTransformedPack p ctx inputs rel) }) := by
  unfold CDSSMPreprocessor.transform
  rw [hdp]
  simp [if_neg hstage, processLeft_of_raw, processRight_of_raw, noTestTransformedPack]

theorem forall₂_mem_right {α β : Type} {R : α → β → Prop} {l1 : List α} {l2 : List β}
    (h : List.Forall₂ R l1 l2) : ∀ b ∈ l2, ∃ a ∈ l1, R a b := by
  induction h with
  | nil => intro b hb; cases hb
  | cons hr _ ih =>
      intro b hb
      rcases List.mem_cons.mp hb with hb | hb
      · subst hb
        exact ⟨_, List.mem_cons_self _ _, hr⟩
      · obtain ⟨a, ha, hab⟩ := ih b hb
        exact ⟨a, List.mem_cons_of_mem _ ha, hab⟩

/-! ## Shared concrete fixtures for witnesses -/

def pFit0 : CDSSMPreprocessor := CDSSMPreprocessor.init 2 2 0 PadMode.pre PadMode.pre

def fitIn0 : List InputRec := [.rec5 "q" "d" "ab" "cd" 1]

def pFitted0 : CDSSMPreprocessor := { pFit0 with datapack := some (fitPack pFit0 fitIn0) }

def trIn0 : List InputRec := [.rec4 "q" "x" "ab" "yz"]

/-! ## Claims -/

/-- Claim C6: calling `transform` before any `fit` has been performed fails
immediately with the missing-context condition, for every input and every
stage, producing no output container. -/
theorem C6_transform_before_fit (w nb : Nat) (pv : Int) (pm tm : PadMode)
    (ins : List InputRec) (stage : String) :
    (CDSSMPreprocessor.init w nb pv pm tm).transform ins stage =
      .error .missingContext := rfl

/-- Claim C3: after `fit` completes, the processing context holds `dims` equal to
the number of distinct observed terms plus one (the reserved
out-of-vocabulary slot), and `input_shapes` equal to the two tuples
`(window_nb, dims * sliding_window)`, one per side. -/
theorem C3_context_after_fit (p p' : CDSSMPreprocessor) (inputs : List InputRec)
    (hfit : p.fit inputs = .ok p') :
    ∃ dp ctx, p'.datapack = some dp ∧ dp.context = some ctx ∧
      ctx.dims = (corpusTerms inputs).toFinset.card + 1 ∧
      ctx.input_shapes = [(p.window_nb, ctx.dims * p.sliding_window),
                          (p.window_nb, ctx.dims * p.sliding_window)] := by
  obtain ⟨-, hp'⟩ := fit_ok p p' inputs hfit
  subst hp'
  refine ⟨fitPack p inputs, fitContext p inputs, rfl, rfl, ?_, ?_⟩
  · simp [fitContext, buildTermIndex_length]
  · simp [fitContext]

/-- Witness for C3 at a concrete fit call. -/
theorem C3_witness :
    ∃ dp ctx, pFitted0.datapack = some dp ∧ dp.context = some ctx ∧
      ctx.dims = (corpusTerms fitIn0).toFinset.card + 1 ∧
      ctx.input_shapes = [(pFit0.window_nb, ctx.dims * pFit0.sliding_window),
                          (pFit0.window_nb, ctx.dims * pFit0.sliding_window)] :=
  C3_context_after_fit pFit0 pFitted0 fitIn0 (fit_of_rec5 pFit0 fitIn0 (by decide))

/-- Claim C8: `fit` builds one shared vocabulary from the terms of all left texts
then all right texts pooled into a single flattened sequence, with indices
assigned starting at 1 in first-seen order. -/
theorem C8_fit_pools_vocabulary (p p' : CDSSMPreprocessor) (inputs : List InputRec)
    (hfit : p.fit inputs = .ok p') :
    ∃ dp ctx, p'.datapack = some dp ∧ dp.context = some ctx ∧
      ctx.term_index = indexFromOne 1 (dedupKeepFirst (corpusTerms inputs)) := by
  obtain ⟨-, hp'⟩ := fit_ok p p' inputs hfit
  subst hp'
  exact ⟨_, _, rfl, rfl, by simp [fitContext, buildTermIndex_eq]⟩

/-- Witness for C8 at a concrete fit call. -/
theorem C8_witness :
    ∃ dp ctx, pFitted0.datapack = some dp ∧ dp.context = some ctx ∧
      ctx.term_index = indexFromOne 1 (dedupKeepFirst (corpusTerms fitIn0)) :=
  C8_fit_pools_vocabulary pFit0 pFitted0 fitIn0 (fit_of_rec5 pFit0 fitIn0 (by decide))

/-- Claim C5: `transform` never mutates the processing context: for both stages the
term index, dims and input shapes read during the call and available after it
are exactly those populated by the most recent `fit`. -/
theorem C5_transform_preserves_context (p0 p' : CDSSMPreprocessor)
    (fitIn trIn : List InputRec) (stage : String) (out : DataPack × CDSSMPreprocessor)
    (hfit : p0.fit fitIn = .ok p')
    (htr : p'.transform trIn stage = .ok out) :
    ∃ dp, p'.datapack = some dp ∧ dp.context = some (fitContext p0 fitIn) ∧
      out.1.context = some (fitContext p0 fitIn) ∧ out.2.datapack = some out.1 := by
  obtain ⟨-, hp'⟩ := fit_ok p0 p' fitIn hfit
  subst hp'
  obtain ⟨dp2, p2⟩ := out
  by_cases hstage : stage = "test"
  · subst hstage
    obtain ⟨dp0, ctx, hdp, hctx, -, -, -, -, hctx2, hp2⟩ :=
      transform_test_ok _ trIn dp2 p2 htr
    have hdp2 : some (fitPack p0 fitIn) = some dp0 := hdp
    injection hdp2 with hdp2
    subst hdp2
    have hctx3 : some (fitContext p0 fitIn) = some ctx := hctx
    injection hctx3 with hctx3
    subst hctx3
    exact ⟨fitPack p0 fitIn, rfl, rfl, hctx2, by rw [hp2]⟩
  · obtain ⟨dp, ctx, hdp, hctx, -, -, -, hctxeq, hp2⟩ :=
      transform_noTest_ok _ trIn stage hstage dp2 p2 htr
    have hdp2 : some (fitPack p0 fitIn) = some dp := hdp
    injection hdp2 with hdp2
    subst hdp2
    have hctx3 : some (fitContext p0 fitIn) = some ctx := hctx
    injection hctx3 with hctx3
    subst hctx3
    refine ⟨fitPack p0 fitIn, rfl, rfl, ?_, by rw [hp2]⟩
    rw [hctxeq]
    rfl

/-- Witness for C5 at a concrete fit and test-stage transform. -/
theorem C5_witness :
    ∃ dp, pFitted0.datapack = some dp ∧ dp.context = some (fitContext pFit0 fitIn0) ∧
      (testTransformedPack pFitted0 (fitContext pFit0 fitIn0) trIn0).context =
        some (fitContext pFit0 fitIn0) ∧
      ({ pFitted0 with datapack := some (testTransformedPack pFitted0
          (fitContext pFit0 fitIn0) trIn0) } : CDSSMPreprocessor).datapack =
        some (testTransformedPack pFitted0 (fitContext pFit0 fitIn0) trIn0) :=
  C5_transform_preserves_context pFit0 pFitted0 fitIn0 trIn0 "test"
    (testTransformedPack pFitted0 (fitContext pFit0 fitIn0) trIn0,
     { pFitted0 with datapack := some (testTransformedPack pFitted0
        (fitContext pFit0 fitIn0) trIn0) })
    (fit_of_rec5 pFit0 fitIn0 (by decide))
    (transform_test_eval pFitted0 (fitPack pFit0 fitIn0) (fitContext pFit0 fitIn0) trIn0
      rfl rfl (by decide))

/-- Claim C1: for every fitted preprocessor and every input record, `transform`
produces for both sides a window tensor with exactly `window_nb` windows,
each of length `dims * sliding_window`, regardless of the input text's
length. -/
theorem C1_window_tensor_shape (w nb : Nat) (pv : Int) (pm tm : PadMode)
    (fitIn trIn : List InputRec) (stage : String)
    (p' : CDSSMPreprocessor) (out : DataPack × CDSSMPreprocessor)
    (hw : 1 ≤ w) (hnb : 1 ≤ nb)
    (hfit : (CDSSMPreprocessor.init w nb pv pm tm).fit fitIn = .ok p')
    (htr : p'.transform trIn stage = .ok out) :
    ∃ ctx, out.1.context = some ctx ∧
      (∀ row ∈ out.1.left, ∃ t, row.text_left = .tensor t ∧ t.length = nb ∧
        ∀ win ∈ t, win.length = ctx.dims * w) ∧
      (∀ row ∈ out.1.right, ∃ t, row.text_right = .tensor t ∧ t.length = nb ∧
        ∀ win ∈ t, win.length = ctx.dims * w) := by
  obtain ⟨-, hp'⟩ := fit_ok _ p' fitIn hfit
  subst hp'
  obtain ⟨dp2, p2⟩ := out
  by_cases hstage : stage = "test"
  · subst hstage
    obtain ⟨dp0, ctx, hdp, hctx, -, hl, hr, -, hctx2, -⟩ :=
      transform_test_ok _ trIn dp2 p2 htr
    refine ⟨ctx, hctx2, ?_, ?_⟩
    · intro row hrow
      obtain ⟨rowO, -, s0, -, heq⟩ := forall₂_mem_right (processLeft_ok _ _ _ _ hl) row hrow
      subst heq
      exact ⟨_, rfl, (sideTensor_shape _ _ s0 hw hnb rfl).1,
        (sideTensor_shape _ _ s0 hw hnb rfl).2⟩
    · intro row hrow
      obtain ⟨rowO, -, s0, -, heq⟩ := forall₂_mem_right (processRight_ok _ _ _ _ hr) row hrow
      subst heq
      exact ⟨_, rfl, (sideTensor_shape _ _ s0 hw hnb rfl).1,
        (sideTensor_shape _ _ s0 hw hnb rfl).2⟩
  · obtain ⟨dp, ctx, hdp, hctx, hl, hr, -, hctxeq, -⟩ :=
      transform_noTest_ok _ trIn stage hstage dp2 p2 htr
    refine ⟨ctx, by rw [hctxeq, hctx], ?_, ?_⟩
    · intro row hrow
      obtain ⟨rowO, -, s0, -, heq⟩ := forall₂_mem_right (processLeft_ok _ _ _ _ hl) row hrow
      subst heq
      exact ⟨_, rfl, (sideTensor_shape _ _ s0 hw hnb rfl).1,
        (sideTensor_shape _ _ s0 hw hnb rfl).2⟩
    · intro row hrow
      obtain ⟨rowO, -, s0, -, heq⟩ := forall₂_mem_right (processRight_ok _ _ _ _ hr) row hrow
      subst heq
      exact ⟨_, rfl, (sideTensor_shape _ _ s0 hw hnb rfl).1,
        (sideTensor_shape _ _ s0 hw hnb rfl).2⟩

/-- Witness for C1 at a concrete fit and test-stage transform. -/
theorem C1_witness :
    ∃ ctx,
      (testTransformedPack pFitted0 (fitContext pFit0 fitIn0) trIn0).context = some ctx ∧
      (∀ row ∈ (testTransformedPack pFitted0 (fitContext pFit0 fitIn0) trIn0).left,
        ∃ t, row.text_left = .tensor t ∧ t.length = 2 ∧
          ∀ win ∈ t, win.length = ctx.dims * 2) ∧
      (∀ row ∈ (testTransformedPack pFitted0 (fitContext pFit0 fitIn0) trIn0).right,
        ∃ t, row.text_right = .tensor t ∧ t.length = 2 ∧
          ∀ win ∈ t, win.length = ctx.dims * 2) :=
  C1_window_tensor_shape 2 2 0 .pre .pre fitIn0 trIn0 "test" pFitted0
    (testTransformedPack pFitted0 (fitContext pFit0 fitIn0) trIn0,
     { pFitted0 with datapack := some (testTransformedPack pFitted0
        (fitContext pFit0 fitIn0) trIn0) })
    (by decide) (by decide)
    (fit_of_rec5 pFit0 fitIn0 (by decide))
    (transform_test_eval pFitted0 (fitPack pFit0 fitIn0) (fitContext pFit0 fitIn0) trIn0
      rfl rfl (by decide))

/-- Claim C4: per record and per side independently, `transform` applies
normalization, then per token the n-gram unit followed by the term hasher
per term concatenated in token order, then flattening, then length
normalization to `text_length * dims` elements, then reshaping to
`(text_length, dims)`, then the sliding window assembler, storing the result
as that record's transformed side (`specTransformSide` spells out exactly
that order, following the spec's wording). -/
theorem C4_pipeline_order (w nb : Nat) (pv : Int) (pm tm : PadMode)
    (fitIn trIn : List InputRec)
    (p' : CDSSMPreprocessor) (out : DataPack × CDSSMPreprocessor)
    (hw : 1 ≤ w) (hnb : 1 ≤ nb)
    (hfit : (CDSSMPreprocessor.init w nb pv pm tm).fit fitIn = .ok p')
    (htr : p'.transform trIn "train" = .ok out) :
    ∃ ctx, out.1.context = some ctx ∧
      List.Forall₂ (fun q row => row.id_left = q.idLeft ∧
        row.text_left = .tensor (specTransformSide p' ctx q.textLeft)) fitIn out.1.left ∧
      List.Forall₂ (fun q row => row.id_right = q.idRight ∧
        row.text_right = .tensor (specTransformSide p' ctx q.textRight)) fitIn out.1.right := by
  obtain ⟨-, hp'⟩ := fit_ok _ p' fitIn hfit
  have htl : 0 < p'.text_length := by
    rw [hp']
    show 0 < nb + w - 1
    omega
  subst hp'
  obtain ⟨dp2, p2⟩ := out
  obtain ⟨dp, ctx, hdp, hctx, hl, hr, -, hctxeq, -⟩ :=
    transform_noTest_ok _ trIn "train" (by decide) dp2 p2 htr
  have hdp2 : some (fitPack (CDSSMPreprocessor.init w nb pv pm tm) fitIn) = some dp := hdp
  injection hdp2 with hdp2
  subst hdp2
  refine ⟨ctx, by rw [hctxeq, hctx], ?_, ?_⟩
  · have hleft : (fitPack (CDSSMPreprocessor.init w nb pv pm tm) fitIn).left =
        fitIn.map (fun q => (⟨q.idLeft, .raw q.textLeft⟩ : RowL)) := rfl
    rw [hleft] at hl
    have hF := processLeft_ok _ _ _ _ hl
    rw [List.forall₂_map_left_iff] at hF
    refine hF.imp ?_
    intro q row2 hqr
    obtain ⟨s0, hs0, heq⟩ := hqr
    have hs0b : CellVal.raw q.textLeft = CellVal.raw s0 := hs0
    injection hs0b with hs0b
    subst hs0b
    subst heq
    exact ⟨rfl, by rw [← sideTensor_eq_spec _ _ _ htl]⟩
  · have hright : (fitPack (CDSSMPreprocessor.init w nb pv pm tm) fitIn).right =
        fitIn.map (fun q => (⟨q.idRight, .raw q.textRight⟩ : RowR)) := rfl
    rw [hright] at hr
    have hF := processRight_ok _ _ _ _ hr
    rw [List.forall₂_map_left_iff] at hF
    refine hF.imp ?_
    intro q row2 hqr
    obtain ⟨s0, hs0, heq⟩ := hqr
    have hs0b : CellVal.raw q.textRight = CellVal.raw s0 := hs0
    injection hs0b with hs0b
    subst hs0b
    subst heq
    exact ⟨rfl, by rw [← sideTensor_eq_spec _ _ _ htl]⟩

/-- Witness for C4 at a concrete fit and train-stage transform. -/
theorem C4_witness :
    ∃ ctx,
      (noTestTransformedPack pFitted0 (fitContext pFit0 fitIn0) fitIn0
        (relRowsOf fitIn0)).context = some ctx ∧
      List.Forall₂ (fun q row => row.id_left = q.idLeft ∧
        row.text_left = .tensor (specTransformSide pFitted0 ctx q.textLeft)) fitIn0
        (noTestTransformedPack pFitted0 (fitContext pFit0 fitIn0) fitIn0
          (relRowsOf fitIn0)).left ∧
      List.Forall₂ (fun q row => row.id_right = q.idRight ∧
        row.text_right = .tensor (specTransformSide pFitted0 ctx q.textRight)) fitIn0
        (noTestTransformedPack pFitted0 (fitContext pFit0 fitIn0) fitIn0
          (relRowsOf fitIn0)).right :=
  C4_pipeline_order 2 2 0 .pre .pre fitIn0 trIn0 pFitted0
    (noTestTransformedPack pFitted0 (fitContext pFit0 fitIn0) fitIn0 (relRowsOf fitIn0),
     { pFitted0 with datapack := some (noTestTransformedPack pFitted0
        (fitContext pFit0 fitIn0) fitIn0 (relRowsOf fitIn0)) })
    (by decide) (by decide)
    (fit_of_rec5 pFit0 fitIn0 (by decide))
    (transform_noTest_eval pFitted0 fitIn0 (relRowsOf fitIn0) (fitContext pFit0 fitIn0)
      trIn0 "train" (by decide) rfl)

/-- Claim C2, amended: the letter n-gram unit always extracts length-3 n-grams
(trigrams) regardless of the configured `sliding_window` — the source
constructs the unit with no arguments — and the same per-token extraction
feeds both fit (vocabulary terms) and transform (hashed terms): the
fit-time term sequence of a text is exactly the flattening of the per-token
n-gram lists that transform hashes. -/
theorem C2_ngram_fixed_and_shared (s : String) :
    fitTerms s = ((processUnits s).map (fun t => NgramLetterUnit.transform [t])).flatten ∧
    ∀ g ∈ fitTerms s, g.length = 3 :=
  ⟨NgramLetterUnit.transform_flat (processUnits s),
   fun g hg => NgramLetterUnit.length_mem _ g hg⟩

/-- Counterexample for C2: with `sliding_window = 4` the fitted vocabulary
consists of length-3 n-grams, not length-4 ones — the n-gram length does not
follow the configured `sliding_window`. -/
theorem C2_counterexample :
    ∃ p', (CDSSMPreprocessor.init 4 5 0 .pre .pre).fit
        [.rec5 "q" "d" "abcd" "efgh" 1] = .ok p' ∧
      (CDSSMPreprocessor.init 4 5 0 .pre .pre).sliding_window = 4 ∧
      ∃ dp ctx, p'.datapack = some dp ∧ dp.context = some ctx ∧
        ctx.term_index ≠ [] ∧ ∀ q ∈ ctx.term_index, q.1.length = 3 := by
  refine ⟨_, fit_of_rec5 _ _ (by decide), rfl, _, _, rfl, rfl, ?_, ?_⟩
  · decide
  · decide

theorem segmentRecs_train_err (inputs : List InputRec)
    (h : ∃ q ∈ inputs, q.isRec5 = false) :
    segmentRecs "train" inputs = .error .wrongArity := by
  induction inputs with
  | nil =>
      obtain ⟨q, hq, -⟩ := h
      cases hq
  | cons q qs ih =>
      cases q with
      | rec4 a b tl tr => simp [segmentRecs, segmentRecord]
      | rec5 a b tl tr lab =>
          obtain ⟨q2, hq2, h4⟩ := h
          rcases List.mem_cons.mp hq2 with hq2 | hq2
          · subst hq2
            simp [InputRec.isRec5] at h4
          · have hrest := ih ⟨q2, hq2, h4⟩
            simp [segmentRecs, segmentRecord, hrest]

theorem fit_err (p : CDSSMPreprocessor) (inputs : List InputRec)
    (h : ∃ q ∈ inputs, q.isRec5 = false) :
    p.fit inputs = .error .wrongArity := by
  unfold CDSSMPreprocessor.fit
  rw [segmentRecs_train_err inputs h]

/-- Claim C9, amended: `fit` is invoked as `fit(inputs)` with no stage parameter;
it always segments its inputs at stage train, accepting exactly 5-tuple
records (left id, right id, left text, right text, label), and returns the
preprocessor itself — same configuration, data pack populated — while any
input list containing a 4-tuple (test-style) record makes `fit` fail with
the wrong-arity error instead. -/
theorem C9_fit_signature (p : CDSSMPreprocessor) (inputs : List InputRec)
    (h5 : ∀ q ∈ inputs, q.isRec5 = true) :
    p.fit inputs = .ok { p with datapack := some (fitPack p inputs) } ∧
    ∀ inputs2 : List InputRec, (∃ q ∈ inputs2, q.isRec5 = false) →
      p.fit inputs2 = .error .wrongArity :=
  ⟨fit_of_rec5 p inputs h5, fun inputs2 h => fit_err p inputs2 h⟩

/-- Witness for C9 at a concrete fit call. -/
theorem C9_witness :
    pFit0.fit fitIn0 = .ok { pFit0 with datapack := some (fitPack pFit0 fitIn0) } ∧
    ∀ inputs2 : List InputRec, (∃ q ∈ inputs2, q.isRec5 = false) →
      pFit0.fit inputs2 = .error .wrongArity :=
  C9_fit_signature pFit0 fitIn0 (by decide)

/-- Counterexample for C9: `fit` rejects a 4-tuple (unlabelled, test-style)
record with the wrong-arity condition instead of accepting it — the source's
`fit` takes no stage argument and always segments at stage train. -/
theorem C9_counterexample :
    (CDSSMPreprocessor.init 3 5 0 .pre .pre).fit
      [.rec4 "id0" "id4" "beijing" "visited beijing"] = .error .wrongArity := rfl

/-! ## Fixtures for the empty-corpus claims -/

def pFittedE : CDSSMPreprocessor := { pFit0 with datapack := some (fitPack pFit0 []) }

def trInE : List InputRec := [.rec4 "a" "b" "ab" "cd"]

/-- Tensor stored in a cell, or the empty tensor for a raw cell. -/
def cellTensor : CellVal → List (List Int)
  | .raw _ => []
  | .tensor t => t

/-- Claim C7, amended: fitting on a corpus that yields zero terms raises no error
and produces `dims = 1`; every subsequent test-stage transform completes
without error and every term hashes to the out-of-vocabulary index 0, so
every produced entry is either the pad value or a 1 written at an
out-of-vocabulary position — the vectors are all-OOV but not all-zero in
general. -/
theorem C7_empty_fit (p0 p' : CDSSMPreprocessor) (fitIn : List InputRec)
    (hfit : p0.fit fitIn = .ok p')
    (hzero : corpusTerms fitIn = [])
    (trIn : List InputRec) (htest : ∀ q ∈ trIn, q.isRec5 = false) :
    (∃ dp ctx, p'.datapack = some dp ∧ dp.context = some ctx ∧ ctx.dims = 1 ∧
      ∀ t, lookupIndex ctx.term_index t = 0) ∧
    ∃ out, p'.transform trIn "test" = .ok out ∧
      (∀ row ∈ out.1.left, ∀ win ∈ cellTensor row.text_left, ∀ x ∈ win,
        x = p0.pad_value ∨ x = 1) ∧
      (∀ row ∈ out.1.right, ∀ win ∈ cellTensor row.text_right, ∀ x ∈ win,
        x = p0.pad_value ∨ x = 1) := by
  obtain ⟨-, hp'⟩ := fit_ok p0 p' fitIn hfit
  subst hp'
  have hti : (fitContext p0 fitIn).term_index = [] := by
    simp [fitContext, hzero, buildTermIndex]
  constructor
  · refine ⟨fitPack p0 fitIn, fitContext p0 fitIn, rfl, rfl, ?_, ?_⟩
    · simp [fitContext, hzero, buildTermIndex]
    · intro t
      rw [hti]
      rfl
  · refine ⟨_, transform_test_eval _ (fitPack p0 fitIn) (fitContext p0 fitIn) trIn
      rfl rfl htest, ?_, ?_⟩
    · intro row hrow win hwin x hx
      simp only [testTransformedPack, List.mem_map] at hrow
      obtain ⟨q, -, hrow⟩ := hrow
      subst hrow
      simp only [cellTensor] at hwin
      exact sideTensor_entries_oov _ _ _ hti win hwin x hx
    · intro row hrow win hwin x hx
      simp only [testTransformedPack, List.mem_map] at hrow
      obtain ⟨q, -, hrow⟩ := hrow
      subst hrow
      simp only [cellTensor] at hwin
      exact sideTensor_entries_oov _ _ _ hti win hwin x hx

/-- Witness for C7 at the concrete empty corpus. -/
theorem C7_witness :
    (∃ dp ctx, pFittedE.datapack = some dp ∧ dp.context = some ctx ∧ ctx.dims = 1 ∧
      ∀ t, lookupIndex ctx.term_index t = 0) ∧
    ∃ out, pFittedE.transform trInE "test" = .ok out ∧
      (∀ row ∈ out.1.left, ∀ win ∈ cellTensor row.text_left, ∀ x ∈ win,
        x = pFit0.pad_value ∨ x = 1) ∧
      (∀ row ∈ out.1.right, ∀ win ∈ cellTensor row.text_right, ∀ x ∈ win,
        x = pFit0.pad_value ∨ x = 1) :=
  C7_empty_fit pFit0 pFittedE [] (fit_of_rec5 pFit0 [] (by decide)) rfl trInE (by decide)

/-- Counterexample for C7: after fitting on the empty corpus (`dims = 1`), a
test-stage transform of a nonempty text yields a window tensor containing
the entry 1 — the produced vectors are not all-zero. -/
theorem C7_counterexample :
    ∃ out, pFittedE.transform trInE "test" = .ok out ∧
      ∃ row ∈ out.1.left, ∃ win ∈ cellTensor row.text_left, ∃ x ∈ win, x ≠ (0 : Int) := by
  refine ⟨_, transform_test_eval pFittedE (fitPack pFit0 []) (fitContext pFit0 []) trInE
      rfl rfl (by decide), ?_⟩
  decide

/-- Claim C10: for every stage value other than test, `transform` ignores its
inputs and returns the very data pack held from `fit`, with each record's
text cells overwritten in place by their window tensors and all other
columns (ids, relation, context) unchanged; the same pack is stored back, so
a second train-stage transform reads the already-transformed tensors rather
than the original texts (and fails on them with a type error). -/
theorem C10_train_inplace (p0 s : CDSSMPreprocessor) (fitIn ins : List InputRec)
    (stage : String) (out : DataPack × CDSSMPreprocessor)
    (hstage : stage ≠ "test")
    (hfit : p0.fit fitIn = .ok s)
    (htr : s.transform ins stage = .ok out) :
    (∀ ins2, s.transform ins2 stage = .ok out) ∧
    ∃ dp ctx, s.datapack = some dp ∧ dp.context = some ctx ∧
      out.1.relation = dp.relation ∧ out.1.context = dp.context ∧
      List.Forall₂ (fun row row2 => ∃ s0, row.text_left = .raw s0 ∧
        row2 = ⟨row.id_left, .tensor (sideTensor s ctx s0)⟩) dp.left out.1.left ∧
      List.Forall₂ (fun row row2 => ∃ s0, row.text_right = .raw s0 ∧
        row2 = ⟨row.id_right, .tensor (sideTensor s ctx s0)⟩) dp.right out.1.right ∧
      out.2.datapack = some out.1 ∧
      (out.1.left ≠ [] → ∀ ins3, out.2.transform ins3 stage = .error .typeError) := by
  obtain ⟨dp2, p2⟩ := out
  obtain ⟨dp, ctx, hdp, hctx, hl, hr, hrel, hctxeq, hp2⟩ :=
    transform_noTest_ok s ins stage hstage dp2 p2 htr
  subst hp2
  constructor
  · intro ins2
    rw [transform_noTest_inputs s ins2 ins stage hstage]
    exact htr
  · refine ⟨dp, ctx, hdp, hctx, hrel, hctxeq, processLeft_ok _ _ _ _ hl,
      processRight_ok _ _ _ _ hr, rfl, ?_⟩
    intro hne ins3
    have hF := processLeft_ok _ _ _ _ hl
    cases hd2 : dp2.left with
    | nil => exact absurd hd2 hne
    | cons r2 rest =>
        have hmem : r2 ∈ dp2.left := by
          rw [hd2]
          exact List.mem_cons_self _ _
        obtain ⟨a, -, s0, -, heq⟩ := forall₂_mem_right hF r2 hmem
        unfold CDSSMPreprocessor.transform
        simp only [if_neg hstage]
        rw [hctxeq, hctx]
        simp only
        rw [hd2]
        simp [processLeft, heq]

/-- Witness for C10 at a concrete fit and train-stage transform. -/
theorem C10_witness :
    (∀ ins2, pFitted0.transform ins2 "train" = .ok
      (noTestTransformedPack pFitted0 (fitContext pFit0 fitIn0) fitIn0 (relRowsOf fitIn0),
       { pFitted0 with datapack := some (noTestTransformedPack pFitted0
          (fitContext pFit0 fitIn0) fitIn0 (relRowsOf fitIn0)) })) ∧
    ∃ dp ctx, pFitted0.datapack = some dp ∧ dp.context = some ctx ∧
      (noTestTransformedPack pFitted0 (fitContext pFit0 fitIn0) fitIn0
        (relRowsOf fitIn0)).relation = dp.relation ∧
      (noTestTransformedPack pFitted0 (fitContext pFit0 fitIn0) fitIn0
        (relRowsOf fitIn0)).context = dp.context ∧
      List.Forall₂ (fun row row2 => ∃ s0, row.text_left = .raw s0 ∧
        row2 = ⟨row.id_left, .tensor (sideTensor pFitted0 ctx s0)⟩) dp.left
        (noTestTransformedPack pFitted0 (fitContext pFit0 fitIn0) fitIn0
          (relRowsOf fitIn0)).left ∧
      List.Forall₂ (fun row row2 => ∃ s0, row.text_right = .raw s0 ∧
        row2 = ⟨row.id_right, .tensor (sideTensor pFitted0 ctx s0)⟩) dp.right
        (noTestTransformedPack pFitted0 (fitContext pFit0 fitIn0) fitIn0
          (relRowsOf fitIn0)).right ∧
      ({ pFitted0 with datapack := some (noTestTransformedPack pFitted0
          (fitContext pFit0 fitIn0) fitIn0 (relRowsOf fitIn0)) } :
        CDSSMPreprocessor).datapack =
        some (noTestTransformedPack pFitted0 (fitContext pFit0 fitIn0) fitIn0
          (relRowsOf fitIn0)) ∧
      ((noTestTransformedPack pFitted0 (fitContext pFit0 fitIn0) fitIn0
          (relRowsOf fitIn0)).left ≠ [] → ∀ ins3,
        ({ pFitted0 with datapack := some (noTestTransformedPack pFitted0
            (fitContext pFit0 fitIn0) fitIn0 (relRowsOf fitIn0)) } :
          CDSSMPreprocessor).transform ins3 "train" = .error .typeError) :=
  C10_train_inplace pFit0 pFitted0 fitIn0 trIn0 "train"
    (noTestTransformedPack pFitted0 (fitContext pFit0 fitIn0) fitIn0 (relRowsOf fitIn0),
     { pFitted0 with datapack := some (noTestTransformedPack pFitted0
        (fitContext pFit0 fitIn0) fitIn0 (relRowsOf fitIn0)) })
    (by decide)
    (fit_of_rec5 pFit0 fitIn0 (by decide))
    (transform_noTest_eval pFitted0 fitIn0 (relRowsOf fitIn0) (fitContext pFit0 fitIn0)
      trIn0 "train" (by decide) rfl)
